import Mathlib

/-!
Verification of the silence-aware audio extraction pipeline in
`src/app/services/video_processor.py` (class `VideoProcessor`).

Python strings are modelled as `List Char`; Python floats are modelled as `ℚ`
(the values flowing through the pipeline are ffmpeg decimal timestamps, and the
operations performed on them are comparisons, `max`/`min` and additions of
small decimals, all exact). Subprocess invocations are modelled by an explicit
`ProcResult` describing how the external process behaved.
-/

namespace VideoExtractor

/-- Whitespace characters recognised by Python's argument-less `str.split` and
by `float`'s surrounding-whitespace stripping (ASCII fragment). -/
def isPySpace (c : Char) : Bool :=
  c = ' ' ∨ c = '\t' ∨ c = '\n' ∨ c = '\r' ∨ c = '\x0b' ∨ c = '\x0c'

/-- Split a character list at every character satisfying `p`, keeping empty
parts: the model of Python's `str.split(sep)` for a one-character separator
(taking `p` to test equality with that separator). -/
def splitIfChar (p : Char → Bool) : List Char → List (List Char)
  | [] => [[]]
  | c :: rest =>
    if p c then [] :: splitIfChar p rest
    else
      match splitIfChar p rest with
      | [] => [[c]]
      | h :: t => (c :: h) :: t

/-- Model of Python's `output.split('\n')`. -/
def splitLines (l : List Char) : List (List Char) :=
  splitIfChar (fun c => c = '\n') l

/-- Model of Python's argument-less `str.split()`: split on whitespace runs and
drop empty tokens. -/
def splitTokens (l : List Char) : List (List Char) :=
  (splitIfChar isPySpace l).filter (fun t => ¬ t.isEmpty)

/-- Fuel-driven worker for `splitOnSub`; `fuel ≥` the length of the input makes
the fuel irrelevant, since every step consumes at least one character. -/
def splitOnSubAux (sep : List Char) : Nat → List Char → List (List Char)
  | 0, l => [l]
  | _ + 1, [] => [[]]
  | fuel + 1, c :: rest =>
    if sep.isPrefixOf (c :: rest) then
      [] :: splitOnSubAux sep fuel ((c :: rest).drop sep.length)
    else
      match splitOnSubAux sep fuel rest with
      | [] => [[c]]
      | h :: t => (c :: h) :: t

/-- Model of Python's `str.split(sep)` for a non-empty multi-character
separator: left-to-right, non-overlapping occurrences, empty parts kept. -/
def splitOnSub (sep l : List Char) : List (List Char) :=
  if sep.isEmpty then [l] else splitOnSubAux sep (l.length + 1) l

/-- Model of Python's substring test `sub in l`. -/
def containsSub (sub : List Char) : List Char → Bool
  | [] => sub.isEmpty
  | c :: rest => sub.isPrefixOf (c :: rest) || containsSub sub rest

/-- Strip leading and trailing Python whitespace. -/
def stripWs (l : List Char) : List Char :=
  ((l.dropWhile isPySpace).reverse.dropWhile isPySpace).reverse

/-- Numeric value of a digit run (most significant first). -/
def digitsToNat (l : List Char) : Nat :=
  l.foldl (fun n c => 10 * n + (c.toNat - '0'.toNat)) 0

/-- True when `l` is a non-empty run of decimal digits. -/
def allDigits (l : List Char) : Bool :=
  ¬ l.isEmpty && l.all Char.isDigit

/-- Ten to an integer power, as a rational. -/
def qpow10 (z : ℤ) : ℚ :=
  if 0 ≤ z then (10 : ℚ) ^ z.toNat else 1 / (10 : ℚ) ^ (-z).toNat

/-- Parse an optionally signed non-empty digit run as an integer exponent. -/
def parseExp (l : List Char) : Option ℤ :=
  match l with
  | '-' :: r => if allDigits r then some (-(digitsToNat r : ℤ)) else none
  | '+' :: r => if allDigits r then some (digitsToNat r : ℤ) else none
  | r => if allDigits r then some (digitsToNat r : ℤ) else none

/-- Parse a decimal mantissa `intPart[.fracPart]`, returning its value as a
rational. At least one digit must be present overall. -/
def parseMantissa (l : List Char) : Option ℚ :=
  match splitIfChar (fun c => c = '.') l with
  | [ip] =>
    if allDigits ip then some (digitsToNat ip : ℚ) else none
  | [ip, fp] =>
    if (ip.all Char.isDigit && fp.all Char.isDigit) && ¬ (ip.isEmpty && fp.isEmpty)
    then some ((digitsToNat (ip ++ fp) : ℚ) / (10 : ℚ) ^ fp.length)
    else none
  | _ => none

/-- Model of Python's `float(s)` on the decimal literals produced by ffmpeg:
optional surrounding whitespace, optional sign, decimal mantissa, optional
`e`/`E` exponent. Returns `none` where Python raises `ValueError`. -/
def pyFloat (s : List Char) : Option ℚ :=
  let t := stripWs s
  let signed : ℚ × List Char :=
    match t with
    | '-' :: r => (-1, r)
    | '+' :: r => (1, r)
    | r => (1, r)
  match splitIfChar (fun c => c = 'e' ∨ c = 'E') signed.2 with
  | [m] =>
    match parseMantissa m with
    | some q => some (signed.1 * q)
    | none => none
  | [m, ex] =>
    match parseMantissa m, parseExp ex with
    | some q, some z => some (signed.1 * q * qpow10 z)
    | _, _ => none
  | _ => none

/-- Model of `'silence_start:' in line`. -/
def hasStart (line : List Char) : Bool :=
  containsSub "silence_start:".toList line

/-- Model of `'silence_end:' in line`. -/
def hasEnd (line : List Char) : Bool :=
  containsSub "silence_end:".toList line

/-- Model of `float(line.split('silence_start: ')[1].split()[0])`: `none` where
the Python expression raises `IndexError` or `ValueError`. -/
def lineStartVal (line : List Char) : Option ℚ :=
  match (splitOnSub "silence_start: ".toList line).get? 1 with
  | none => none
  | some part =>
    match (splitTokens part).head? with
    | none => none
    | some tok => pyFloat tok

/-- Model of `float(line.split('silence_end: ')[1].split()[0])`: `none` where
the Python expression raises `IndexError` or `ValueError`. -/
def lineEndVal (line : List Char) : Option ℚ :=
  match (splitOnSub "silence_end: ".toList line).get? 1 with
  | none => none
  | some part =>
    match (splitTokens part).head? with
    | none => none
    | some tok => pyFloat tok

/-- The line scan of `VideoProcessor._parse_silence_output`: the first argument
is the buffered `silence_start` value (`None` initially), the second the
remaining lines. Mirrors the Python loop branch for branch, including the
`continue` on failed timestamp parses. -/
def parseSilenceAux : Option ℚ → List (List Char) → List (ℚ × ℚ)
  | _, [] => []
  | buf, line :: rest =>
    if hasStart line then
      match lineStartVal line with
      | some v => parseSilenceAux (some v) rest
      | none => parseSilenceAux buf rest
    else if hasEnd line then
      match buf with
      | some s =>
        match lineEndVal line with
        | some e => (s, e) :: parseSilenceAux none rest
        | none => parseSilenceAux buf rest
      | none => parseSilenceAux buf rest
    else parseSilenceAux buf rest

/-- `VideoProcessor._parse_silence_output`. -/
def parseSilenceOutput (output : String) : List (ℚ × ℚ) :=
  parseSilenceAux none (splitLines output.toList)

/-- A line whose timestamp parse fails: the branch it selects is entered but
the float conversion raises, so the loop hits `continue`. -/
def failsParse (line : List Char) : Bool :=
  (hasStart line && (lineStartVal line).isNone) ||
    (!hasStart line && hasEnd line && (lineEndVal line).isNone)

/-- The order `sorted` uses on Python 2-tuples: lexicographic. -/
def pyTupleLe (p q : ℚ × ℚ) : Prop :=
  p.1 < q.1 ∨ (p.1 = q.1 ∧ p.2 ≤ q.2)

instance : DecidableRel pyTupleLe := fun p q => by
  unfold pyTupleLe; infer_instance

/-- The loop of `VideoProcessor._get_speech_segments`: `c` is `current_pos`,
the list is the (already sorted) remaining silence intervals. After the walk,
the final segment `(current_pos, total_duration)` is appended when
`current_pos < total_duration`. -/
def speechAux (c : ℚ) : List (ℚ × ℚ) → ℚ → List (ℚ × ℚ)
  | [], d => if c < d then [(c, d)] else []
  | (s, e) :: rest, d =>
    (if c < s then [(c, s)] else []) ++ speechAux (max c e) rest d

/-- `VideoProcessor._get_speech_segments`: inversion of silence intervals into
speech intervals within `[0, total_duration]` (the Python code sorts its input
with `sorted`, modelled by an insertion sort under the lexicographic order). -/
def getSpeechSegments (silence : List (ℚ × ℚ)) (total_duration : ℚ) :
    List (ℚ × ℚ) :=
  if silence = [] then [(0, total_duration)]
  else speechAux 0 (List.insertionSort pyTupleLe silence) total_duration

/-- The padding/clamping applied to each speech segment inside
`VideoProcessor.remove_silence_segments` before the stitch filter is built:
`(max(0, start - padding), min(duration, end + padding))`. -/
def paddedSegments (segs : List (ℚ × ℚ)) (padding duration : ℚ) :
    List (ℚ × ℚ) :=
  segs.map fun p => (max 0 (p.1 - padding), min duration (p.2 + padding))

/-- Outcome of one `asyncio.create_subprocess_exec` invocation: either the
binary was absent (`FileNotFoundError`) or the process ran and finished with
a return code, stdout and stderr. -/
inductive ProcResult where
  | notFound : ProcResult
  | ran (returncode : ℤ) (stdout stderr : List Char) : ProcResult

/-- `VideoProcessor._get_audio_duration`: on success parses
`float(stdout.decode().strip())`; a non-zero exit returns `0.0`; the
`except (FileNotFoundError, ValueError)` clause also returns `0.0`, so the
function never raises and its result is a plain float. -/
def getAudioDuration (res : ProcResult) : ℚ :=
  match res with
  | .notFound => 0
  | .ran rc out _ =>
    if rc = 0 then
      match pyFloat (stripWs out) with
      | some q => q
      | none => 0
    else 0

/-- `VideoProcessor.detect_silence`, abstracted over the ffmpeg invocation's
outcome: a non-zero exit yields the empty interval list, a successful run
parses stderr, and an absent binary raises
`RuntimeError("FFmpeg not found for silence detection")` (modelled as
`Except.error`). -/
def detectSilence (res : ProcResult) : Except String (List (ℚ × ℚ)) :=
  match res with
  | .notFound => .error "FFmpeg not found for silence detection"
  | .ran rc _ err =>
    if rc ≠ 0 then .ok []
    else .ok (parseSilenceAux none (splitLines err))

/-- A `pathlib.Path` as used by the processor: directory part, stem and
suffix; `parent / (stem + suffix)` is the denoted path. -/
structure PyPath where
  parent : String
  stem : String
  suffix : String
deriving DecidableEq, Repr

instance {ε α : Type} [DecidableEq ε] [DecidableEq α] :
    DecidableEq (Except ε α) := fun a b =>
  match a, b with
  | .ok x, .ok y => decidable_of_iff (x = y) (by simp)
  | .error x, .error y => decidable_of_iff (x = y) (by simp)
  | .ok _, .error _ => isFalse (fun h => Except.noConfusion h)
  | .error _, .ok _ => isFalse (fun h => Except.noConfusion h)

/-- The output path `audio_path.parent / f"{audio_path.stem}_no_silence.wav"`
of `VideoProcessor.remove_silence_segments`. -/
def noSilencePath (p : PyPath) : PyPath :=
  ⟨p.parent, p.stem ++ "_no_silence", ".wav"⟩

/-- `VideoProcessor.remove_silence_segments`, abstracted over the two external
interactions: `durationRes` is the ffprobe invocation consumed by
`_get_audio_duration`, `stitchRes` the ffmpeg concat invocation.
`outputExists` records whether the stitcher actually produced its output
file — the Python code never consults it (it returns `output_path` on any
zero exit status), so the parameter is unused, mirroring the source.
An empty silence list or an empty speech list short-circuits to the original
path; a non-zero stitch exit also returns the original path; an absent ffmpeg
binary raises `RuntimeError("FFmpeg not found for silence removal")`. -/
def removeSilenceSegments (padding : ℚ) (audioPath : PyPath)
    (silence : List (ℚ × ℚ)) (durationRes stitchRes : ProcResult)
    (outputExists : Bool) : Except String PyPath :=
  if silence = [] then .ok audioPath
  else
    let duration := getAudioDuration durationRes
    let speech := getSpeechSegments silence duration
    if speech = [] then .ok audioPath
    else
      let _filterSegs := paddedSegments speech padding duration
      let _ := outputExists
      match stitchRes with
      | .notFound => .error "FFmpeg not found for silence removal"
      | .ran rc _ _ =>
        if rc ≠ 0 then .ok audioPath
        else .ok (noSilencePath audioPath)

/-- Union of the closed intervals named by a list of `(start, end)` pairs. -/
def segsUnion (l : List (ℚ × ℚ)) : Set ℚ :=
  {x | ∃ p ∈ l, p.1 ≤ x ∧ x ≤ p.2}

theorem mem_segsUnion {x : ℚ} {l : List (ℚ × ℚ)} :
    x ∈ segsUnion l ↔ ∃ p ∈ l, p.1 ≤ x ∧ x ≤ p.2 := Iff.rfl

theorem segsUnion_cons (p : ℚ × ℚ) (l : List (ℚ × ℚ)) :
    segsUnion (p :: l) = Set.Icc p.1 p.2 ∪ segsUnion l := by
  ext x
  simp only [mem_segsUnion, List.mem_cons, Set.mem_union, Set.mem_Icc]
  constructor
  · rintro ⟨q, hq | hq, hx⟩
    · exact Or.inl (hq ▸ hx)
    · exact Or.inr ⟨q, hq, hx⟩
  · rintro (hx | ⟨q, hq, hx⟩)
    · exact ⟨p, Or.inl rfl, hx⟩
    · exact ⟨q, Or.inr hq, hx⟩

theorem segsUnion_append (l₁ l₂ : List (ℚ × ℚ)) :
    segsUnion (l₁ ++ l₂) = segsUnion l₁ ∪ segsUnion l₂ := by
  ext x
  simp only [mem_segsUnion, List.mem_append, Set.mem_union]
  constructor
  · rintro ⟨q, hq | hq, hx⟩
    · exact Or.inl ⟨q, hq, hx⟩
    · exact Or.inr ⟨q, hq, hx⟩
  · rintro (⟨q, hq, hx⟩ | ⟨q, hq, hx⟩)
    · exact ⟨q, Or.inl hq, hx⟩
    · exact ⟨q, Or.inr hq, hx⟩

theorem segsUnion_eq_of_mem_iff {l₁ l₂ : List (ℚ × ℚ)}
    (h : ∀ p, p ∈ l₁ ↔ p ∈ l₂) : segsUnion l₁ = segsUnion l₂ := by
  ext x
  simp only [mem_segsUnion]
  constructor
  · rintro ⟨q, hq, hx⟩; exact ⟨q, (h q).mp hq, hx⟩
  · rintro ⟨q, hq, hx⟩; exact ⟨q, (h q).mpr hq, hx⟩

/-- Every interval emitted by the inversion walk starts no earlier than the
cursor, is well-formed, and ends no later than the total duration. -/
theorem speechAux_mem_bounds {d : ℚ} :
    ∀ {l : List (ℚ × ℚ)} {c : ℚ}, c ≤ d → (∀ p ∈ l, p.1 ≤ p.2 ∧ p.2 ≤ d) →
      ∀ q ∈ speechAux c l d, c ≤ q.1 ∧ q.1 ≤ q.2 ∧ q.2 ≤ d
  | [], c, hc, _, q, hq => by
    simp only [speechAux] at hq
    split at hq
    · rcases List.mem_singleton.mp hq with rfl
      exact ⟨le_refl _, hc, le_refl _⟩
    · cases hq
  | (s, e) :: rest, c, hc, hl, q, hq => by
    have hhead := hl (s, e) (List.mem_cons_self _ _)
    have hc' : max c e ≤ d := max_le hc hhead.2
    simp only [speechAux, List.mem_append] at hq
    rcases hq with hq | hq
    · split at hq
      · rcases List.mem_singleton.mp hq with rfl
        exact ⟨le_refl _, le_of_lt (by assumption), le_trans hhead.1 hhead.2⟩
      · cases hq
    · have hrest : ∀ p ∈ rest, p.1 ≤ p.2 ∧ p.2 ≤ d :=
        fun p hp => hl p (List.mem_cons_of_mem _ hp)
      have := speechAux_mem_bounds hc' hrest q hq
      exact ⟨le_trans (le_max_left c e) this.1, this.2⟩

/-- Every interval emitted by the inversion walk has positive length. -/
theorem speechAux_mem_strict {d : ℚ} :
    ∀ {l : List (ℚ × ℚ)} {c : ℚ}, ∀ q ∈ speechAux c l d, q.1 < q.2
  | [], c, q, hq => by
    simp only [speechAux] at hq
    split at hq
    · rcases List.mem_singleton.mp hq with rfl
      assumption
    · cases hq
  | (s, e) :: rest, c, q, hq => by
    simp only [speechAux, List.mem_append] at hq
    rcases hq with hq | hq
    · split at hq
      · rcases List.mem_singleton.mp hq with rfl
        assumption
      · cases hq
    · exact speechAux_mem_strict q hq

/-- The intervals emitted by the inversion walk are pairwise non-overlapping,
listed in order: each one ends no later than the next begins. -/
theorem speechAux_pairwise {d : ℚ} :
    ∀ {l : List (ℚ × ℚ)} {c : ℚ}, c ≤ d → (∀ p ∈ l, p.1 ≤ p.2 ∧ p.2 ≤ d) →
      List.Pairwise (fun p q : ℚ × ℚ => p.2 ≤ q.1) (speechAux c l d)
  | [], c, hc, _ => by
    simp only [speechAux]
    split
    · exact List.pairwise_singleton _ _
    · exact List.Pairwise.nil
  | (s, e) :: rest, c, hc, hl => by
    have hhead := hl (s, e) (List.mem_cons_self _ _)
    have hc' : max c e ≤ d := max_le hc hhead.2
    have hrest : ∀ p ∈ rest, p.1 ≤ p.2 ∧ p.2 ≤ d :=
      fun p hp => hl p (List.mem_cons_of_mem _ hp)
    have htail := speechAux_pairwise (l := rest) hc' hrest
    simp only [speechAux]
    split
    · refine List.pairwise_append.mpr ⟨List.pairwise_singleton _ _, htail, ?_⟩
      rintro a ha b hb
      rcases List.mem_singleton.mp ha with rfl
      have hb' := speechAux_mem_bounds hc' hrest b hb
      exact le_trans (le_trans hhead.1 (le_max_right c e)) hb'.1
    · simpa using htail

/-- Every point of `[cursor, duration)` lies in an emitted speech interval or
in one of the remaining silence intervals. -/
theorem speechAux_cover_Ico {d : ℚ} :
    ∀ (l : List (ℚ × ℚ)) (c : ℚ),
      Set.Ico c d ⊆ segsUnion (speechAux c l d) ∪ segsUnion l
  | [], c => by
    intro x hx
    have hcd : c < d := lt_of_le_of_lt hx.1 hx.2
    simp only [speechAux, if_pos hcd]
    exact Or.inl ⟨(c, d), List.mem_singleton_self _, hx.1, le_of_lt hx.2⟩
  | (s, e) :: rest, c => by
    intro x hx
    simp only [speechAux, segsUnion_append, segsUnion_cons, Set.mem_union]
    rcases le_or_lt x e with hxe | hxe
    · rcases le_or_lt s x with hsx | hsx
      · exact Or.inr (Or.inl ⟨hsx, hxe⟩)
      · -- x < s, so the gap interval (c, s) was emitted (c ≤ x < s)
        have hcs : c < s := lt_of_le_of_lt hx.1 hsx
        simp only [if_pos hcs]
        exact Or.inl (Or.inl ⟨(c, s), List.mem_singleton_self _, hx.1, le_of_lt hsx⟩)
    · -- x > e: x is at or beyond the advanced cursor
      have hx' : x ∈ Set.Ico (max c e) d := ⟨max_le hx.1 (le_of_lt hxe), hx.2⟩
      rcases speechAux_cover_Ico rest (max c e) hx' with h | h
      · exact Or.inl (Or.inr h)
      · exact Or.inr (Or.inr h)

/-- The total duration itself is covered, provided the cursor has not yet
reached it or some remaining silence interval ends exactly there. -/
theorem speechAux_cover_top {d : ℚ} :
    ∀ (l : List (ℚ × ℚ)) (c : ℚ), c ≤ d → (∀ p ∈ l, p.1 ≤ p.2 ∧ p.2 ≤ d) →
      (c < d ∨ ∃ p ∈ l, p.2 = d) →
      d ∈ segsUnion (speechAux c l d) ∪ segsUnion l
  | [], c, hc, _, hdisj => by
    rcases hdisj with hcd | ⟨p, hp, _⟩
    · simp only [speechAux, if_pos hcd]
      exact Or.inl ⟨(c, d), List.mem_singleton_self _, le_of_lt hcd, le_refl _⟩
    · cases hp
  | (s, e) :: rest, c, hc, hl, hdisj => by
    have hhead := hl (s, e) (List.mem_cons_self _ _)
    have hc' : max c e ≤ d := max_le hc hhead.2
    have hrest : ∀ p ∈ rest, p.1 ≤ p.2 ∧ p.2 ≤ d :=
      fun p hp => hl p (List.mem_cons_of_mem _ hp)
    simp only [speechAux, segsUnion_append, segsUnion_cons, Set.mem_union]
    by_cases hed : e = d
    · exact Or.inr (Or.inl ⟨le_trans hhead.1 (le_of_eq hed), le_of_eq hed.symm⟩)
    · have hdisj' : max c e < d ∨ ∃ p ∈ rest, p.2 = d := by
        rcases hdisj with hcd | ⟨p, hp, hpd⟩
        · rcases lt_or_eq_of_le hc' with hlt | hmax
          · exact Or.inl hlt
          · exfalso
            apply hed
            rcases le_total c e with hce | hce
            · rwa [max_eq_right hce] at hmax
            · rw [max_eq_left hce] at hmax
              exact absurd (hmax ▸ hcd) (lt_irrefl _)
        · rcases List.mem_cons.mp hp with heq | hp'
          · rw [heq] at hpd
            exact absurd hpd hed
          · exact Or.inr ⟨p, hp', hpd⟩
      rcases speechAux_cover_top rest (max c e) hc' hrest hdisj' with h | h
      · exact Or.inl (Or.inr h)
      · exact Or.inr (Or.inr h)

theorem charValDigit0 : ('0').val.toNat = 48 := rfl

theorem charValDigit1 : ('1').val.toNat = 49 := rfl

theorem charValDigit2 : ('2').val.toNat = 50 := rfl

theorem charValDigit3 : ('3').val.toNat = 51 := rfl

theorem charValDigit5 : ('5').val.toNat = 53 := rfl

theorem charValDigit9 : ('9').val.toNat = 57 := rfl

/-- Appending one more `silence_start` line to a log never changes the emitted
intervals: it only rewrites the buffered start, which is then discarded at
end-of-log. -/
theorem parseSilenceAux_trailing_start (l : List Char) (h : hasStart l = true) :
    ∀ (lines : List (List Char)) (buf : Option ℚ),
      parseSilenceAux buf (lines ++ [l]) = parseSilenceAux buf lines := by
  intro lines
  induction lines with
  | nil =>
    intro buf
    simp only [List.nil_append]
    cases hv : lineStartVal l <;> simp [parseSilenceAux, h, hv]
  | cons hd tl ih =>
    intro buf
    simp only [List.cons_append]
    cases h1 : hasStart hd
    · cases h2 : hasEnd hd
      · simp [parseSilenceAux, h1, h2, ih]
      · cases buf with
        | none => simp [parseSilenceAux, h1, h2, ih]
        | some s => cases hv : lineEndVal hd <;> simp [parseSilenceAux, h1, h2, hv, ih]
    · cases hv : lineStartVal hd <;> simp [parseSilenceAux, h1, hv, ih]

/-- Removing a line whose timestamp parse fails leaves the scan's result
unchanged: the `continue` neither emits nor alters the buffered state. -/
theorem parseSilenceAux_skip (l : List Char) (h : failsParse l = true) :
    ∀ (pre post : List (List Char)) (buf : Option ℚ),
      parseSilenceAux buf (pre ++ l :: post) = parseSilenceAux buf (pre ++ post) := by
  have hbase : ∀ (post : List (List Char)) (buf : Option ℚ),
      parseSilenceAux buf (l :: post) = parseSilenceAux buf post := by
    intro post buf
    cases h1 : hasStart l
    · have h2 : hasEnd l = true ∧ lineEndVal l = none := by
        simpa [failsParse, h1, Option.isNone_iff_eq_none] using h
      cases buf with
      | none => simp [parseSilenceAux, h1, h2.1]
      | some s => simp [parseSilenceAux, h1, h2.1, h2.2]
    · have hnone : lineStartVal l = none := by
        simpa [failsParse, h1, Option.isNone_iff_eq_none] using h
      simp [parseSilenceAux, h1, hnone]
  intro pre
  induction pre with
  | nil =>
    intro post buf
    simpa using hbase post buf
  | cons hd tl ih =>
    intro post buf
    simp only [List.cons_append]
    cases h1 : hasStart hd
    · cases h2 : hasEnd hd
      · simp [parseSilenceAux, h1, h2, ih]
      · cases buf with
        | none => simp [parseSilenceAux, h1, h2, ih]
        | some s => cases hv : lineEndVal hd <;> simp [parseSilenceAux, h1, h2, hv, ih]
    · cases hv : lineStartVal hd <;> simp [parseSilenceAux, h1, hv, ih]

/-- C2: `_parse_silence_output` emits an interval exactly when a
`silence_end` line follows a buffered `silence_start` line — concretely the
log `"silence_start: 1.0\nsilence_end: 2.5\nsilence_start: 9.0\n"` yields
exactly `[(1.0, 2.5)]`; a trailing `silence_start` is never emitted; a line
whose timestamp fails to parse is skipped without aborting the scan; an end
line with a buffered start emits exactly that pair and clears the buffer; an
end line with no buffered start emits nothing. -/
theorem c2_parse_silence :
    parseSilenceOutput "silence_start: 1.0\nsilence_end: 2.5\nsilence_start: 9.0\n"
        = [((1 : ℚ), (5 / 2 : ℚ))]
    ∧ (∀ (buf : Option ℚ) (lines : List (List Char)) (l : List Char),
        hasStart l = true →
        parseSilenceAux buf (lines ++ [l]) = parseSilenceAux buf lines)
    ∧ (∀ (buf : Option ℚ) (pre post : List (List Char)) (l : List Char),
        failsParse l = true →
        parseSilenceAux buf (pre ++ l :: post) = parseSilenceAux buf (pre ++ post))
    ∧ (∀ (s v : ℚ) (lines : List (List Char)) (l : List Char),
        hasStart l = false → hasEnd l = true → lineEndVal l = some v →
        parseSilenceAux (some s) (l :: lines) = (s, v) :: parseSilenceAux none lines)
    ∧ (∀ (lines : List (List Char)) (l : List Char),
        hasStart l = false → hasEnd l = true →
        parseSilenceAux none (l :: lines) = parseSilenceAux none lines) := by
  refine ⟨?_, ?_, ?_, ?_, ?_⟩
  · norm_num +decide [parseSilenceOutput, splitLines, splitIfChar, parseSilenceAux,
      hasStart, hasEnd, containsSub, lineStartVal, lineEndVal, splitOnSub,
      splitOnSubAux, splitTokens, stripWs, pyFloat, parseMantissa, parseExp,
      allDigits, digitsToNat, qpow10, String.toList, Char.toNat,
      charValDigit0, charValDigit1, charValDigit2, charValDigit5, charValDigit9]
  · intro buf lines l h
    exact parseSilenceAux_trailing_start l h lines buf
  · intro buf pre post l h
    exact parseSilenceAux_skip l h pre post buf
  · intro s v lines l h1 h2 hv
    simp [parseSilenceAux, h1, h2, hv]
  · intro lines l h1 h2
    simp [parseSilenceAux, h1, h2]

/-- Witness for C2's hypothesis-bearing conjuncts at concrete lines: a
trailing start line (`"silence_start: 9.0"`), an unparseable start line
(`"silence_start: abc"`), and an end line (`"silence_end: 3"`) against a
buffered start `1.0` and against an empty buffer. -/
theorem c2_witness :
    (hasStart "silence_start: 9.0".toList = true
      ∧ parseSilenceAux none ([] ++ ["silence_start: 9.0".toList])
          = parseSilenceAux none [])
    ∧ (failsParse "silence_start: abc".toList = true
      ∧ parseSilenceAux none ([] ++ "silence_start: abc".toList :: [])
          = parseSilenceAux none ([] ++ []))
    ∧ (hasStart "silence_end: 3".toList = false
      ∧ hasEnd "silence_end: 3".toList = true
      ∧ lineEndVal "silence_end: 3".toList = some 3
      ∧ parseSilenceAux (some 1) ("silence_end: 3".toList :: [])
          = (1, 3) :: parseSilenceAux none [])
    ∧ parseSilenceAux none ("silence_end: 3".toList :: [])
        = parseSilenceAux none [] := by
  have hv : lineEndVal "silence_end: 3".toList = some 3 := by
    norm_num +decide [lineEndVal, splitOnSub, splitOnSubAux, splitTokens,
      splitIfChar, stripWs, pyFloat, parseMantissa, parseExp, allDigits,
      digitsToNat, String.toList, Char.toNat, charValDigit0, charValDigit3]
  refine ⟨⟨by decide, c2_parse_silence.2.1 none [] _ (by decide)⟩,
    ⟨by decide, c2_parse_silence.2.2.1 none [] [] _ (by decide)⟩,
    ⟨by decide, by decide, hv, c2_parse_silence.2.2.2.1 1 3 [] _ (by decide) (by decide) hv⟩,
    c2_parse_silence.2.2.2.2 [] _ (by decide) (by decide)⟩

/-- C10: a `silence_start` line whose timestamp parses overwrites whatever
start value was buffered before, discarding it; hence an emitted interval
always pairs an end timestamp with the most recent preceding start — on the
log with two starts `1.0`, `9.0` and one end `12.5`, the result is exactly
`[(9.0, 12.5)]`. -/
theorem c10_start_overwrite :
    (∀ (buf : Option ℚ) (v : ℚ) (lines : List (List Char)) (l : List Char),
        hasStart l = true → lineStartVal l = some v →
        parseSilenceAux buf (l :: lines) = parseSilenceAux (some v) lines)
    ∧ parseSilenceOutput "silence_start: 1.0\nsilence_start: 9.0\nsilence_end: 12.5\n"
        = [((9 : ℚ), (25 / 2 : ℚ))] := by
  constructor
  · intro buf v lines l h1 h2
    simp [parseSilenceAux, h1, h2]
  · norm_num +decide [parseSilenceOutput, splitLines, splitIfChar, parseSilenceAux,
      hasStart, hasEnd, containsSub, lineStartVal, lineEndVal, splitOnSub,
      splitOnSubAux, splitTokens, stripWs, pyFloat, parseMantissa, parseExp,
      allDigits, digitsToNat, qpow10, String.toList, Char.toNat,
      charValDigit0, charValDigit1, charValDigit2, charValDigit5, charValDigit9]

/-- Witness for C10's first conjunct: the line `"silence_start: 3"` overwrites
a buffer holding `1.0`. -/
theorem c10_witness :
    hasStart "silence_start: 3".toList = true
    ∧ lineStartVal "silence_start: 3".toList = some 3
    ∧ parseSilenceAux (some 1) ("silence_start: 3".toList :: [])
        = parseSilenceAux (some 3) [] := by
  have hv : lineStartVal "silence_start: 3".toList = some 3 := by
    norm_num +decide [lineStartVal, splitOnSub, splitOnSubAux, splitTokens,
      splitIfChar, stripWs, pyFloat, parseMantissa, parseExp, allDigits,
      digitsToNat, String.toList, Char.toNat, charValDigit0, charValDigit3]
  exact ⟨by decide, hv, c10_start_overwrite.1 (some 1) 3 [] _ (by decide) hv⟩

/-- C1: for every silence interval set `S` (entries satisfying the
`TimeInterval` invariant `0 ≤ start ≤ end`) sorted ascending by start and
every duration `D` at least every end in `S`, the speech intervals produced by
`_get_speech_segments(S, D)` are pairwise non-overlapping, and their union
together with the union of `S` is exactly `[0, D]`. -/
theorem c1_invert_partition (S : List (ℚ × ℚ)) (D : ℚ)
    (hsorted : List.Pairwise (fun p q : ℚ × ℚ => p.1 ≤ q.1) S)
    (hwf : ∀ p ∈ S, 0 ≤ p.1 ∧ p.1 ≤ p.2)
    (hD : ∀ p ∈ S, p.2 ≤ D) :
    List.Pairwise (fun p q : ℚ × ℚ => p.2 ≤ q.1) (getSpeechSegments S D)
    ∧ segsUnion (getSpeechSegments S D) ∪ segsUnion S = Set.Icc 0 D := by
  by_cases hS : S = []
  · subst hS
    simp only [getSpeechSegments, if_pos rfl]
    refine ⟨List.pairwise_singleton _ _, ?_⟩
    ext x
    simp [segsUnion, Set.mem_Icc]
  · have hex : ∃ p, p ∈ S := List.exists_mem_of_ne_nil S hS
    have hD0 : (0 : ℚ) ≤ D := by
      rcases hex with ⟨p, hp⟩
      exact le_trans (hwf p hp).1 (le_trans (hwf p hp).2 (hD p hp))
    have hmem : ∀ p, p ∈ List.insertionSort pyTupleLe S ↔ p ∈ S :=
      fun p => List.mem_insertionSort pyTupleLe
    have hl' : ∀ p ∈ List.insertionSort pyTupleLe S, p.1 ≤ p.2 ∧ p.2 ≤ D :=
      fun p hp => ⟨(hwf p ((hmem p).mp hp)).2, hD p ((hmem p).mp hp)⟩
    have hUeq : segsUnion (List.insertionSort pyTupleLe S) = segsUnion S :=
      segsUnion_eq_of_mem_iff hmem
    simp only [getSpeechSegments, if_neg hS]
    refine ⟨speechAux_pairwise hD0 hl', ?_⟩
    apply Set.Subset.antisymm
    · intro x hx
      rw [Set.mem_Icc]
      rcases hx with hx | hx
      · rcases hx with ⟨q, hq, hx1, hx2⟩
        have hb := speechAux_mem_bounds hD0 hl' q hq
        exact ⟨le_trans hb.1 hx1, le_trans hx2 hb.2.2⟩
      · rcases hx with ⟨p, hp, hx1, hx2⟩
        exact ⟨le_trans (hwf p hp).1 hx1, le_trans hx2 (hD p hp)⟩
    · intro x hx
      rw [Set.mem_Icc] at hx
      rcases lt_or_eq_of_le hx.2 with hxD | hxD
      · have hcov := speechAux_cover_Ico (d := D)
          (List.insertionSort pyTupleLe S) 0 ⟨hx.1, hxD⟩
        rcases hcov with h | h
        · exact Or.inl h
        · exact Or.inr (hUeq ▸ h)
      · subst hxD
        have hdisj : (0 : ℚ) < x ∨ ∃ p ∈ List.insertionSort pyTupleLe S, p.2 = x := by
          rcases lt_or_eq_of_le hD0 with h0D | h0D
          · exact Or.inl h0D
          · rcases hex with ⟨p, hp⟩
            refine Or.inr ⟨p, (hmem p).mpr hp, ?_⟩
            exact le_antisymm (hD p hp)
              (by rw [← h0D]; exact le_trans (hwf p hp).1 (hwf p hp).2)
        have hcov := speechAux_cover_top (List.insertionSort pyTupleLe S) 0 hD0 hl' hdisj
        rcases hcov with h | h
        · exact Or.inl h
        · exact Or.inr (hUeq ▸ h)

/-- Witness for C1 at `S = [(1, 2)]`, `D = 3`: hypotheses hold and the
partition conclusion follows. -/
theorem c1_witness :
    (List.Pairwise (fun p q : ℚ × ℚ => p.1 ≤ q.1) [((1 : ℚ), (2 : ℚ))]
      ∧ (∀ p ∈ [((1 : ℚ), (2 : ℚ))], 0 ≤ p.1 ∧ p.1 ≤ p.2)
      ∧ (∀ p ∈ [((1 : ℚ), (2 : ℚ))], p.2 ≤ (3 : ℚ)))
    ∧ (List.Pairwise (fun p q : ℚ × ℚ => p.2 ≤ q.1) (getSpeechSegments [(1, 2)] 3)
      ∧ segsUnion (getSpeechSegments [(1, 2)] 3) ∪ segsUnion [(1, 2)] = Set.Icc 0 3) :=
  ⟨⟨by decide, by decide, by decide⟩,
    c1_invert_partition [(1, 2)] 3 (by decide) (by decide) (by decide)⟩

/-- C8 counterexample: the empty silence set with total duration `0` is a
valid input (vacuously sorted, entries vacuously well-formed), yet
`_get_speech_segments([], 0)` returns `[(0.0, 0.0)]`, an emitted interval with
`start < end` false. -/
theorem c8_counterexample :
    getSpeechSegments [] 0 = [(0, 0)] ∧ ¬ ((0 : ℚ) < (0 : ℚ)) := by decide

/-- C8 amended: for every NON-EMPTY silence interval set every interval
emitted by `_get_speech_segments` satisfies `start < end`; for the empty
silence set the function returns the single interval `(0, D)`, which is
zero-length exactly when `D = 0`. -/
theorem c8_speech_strict :
    (∀ (S : List (ℚ × ℚ)) (D : ℚ), S ≠ [] →
      ∀ q ∈ getSpeechSegments S D, q.1 < q.2)
    ∧ ∀ D : ℚ, getSpeechSegments [] D = [(0, D)] := by
  constructor
  · intro S D hS q hq
    simp only [getSpeechSegments, if_neg hS] at hq
    exact speechAux_mem_strict q hq
  · intro D
    simp [getSpeechSegments]

/-- Witness for C8 (amended) at `S = [(1, 2)]`, `D = 3`. -/
theorem c8_witness :
    ([((1 : ℚ), (2 : ℚ))] ≠ ([] : List (ℚ × ℚ)))
    ∧ ∀ q ∈ getSpeechSegments [(1, 2)] 3, q.1 < q.2 :=
  ⟨by decide, c8_speech_strict.1 [(1, 2)] 3 (by decide)⟩

/-- C3 counterexample: with ffprobe absent (`FileNotFoundError`),
`_get_audio_duration` catches the exception and returns the plain value
`0.0` — exactly what it returns when the tool ran but exited non-zero — so no
tool-not-found error distinct from the tool-ran-but-failed case is surfaced,
refuting the claim at this input. -/
theorem c3_counterexample :
    getAudioDuration ProcResult.notFound = 0
    ∧ getAudioDuration (ProcResult.ran 1 [] []) = 0
    ∧ getAudioDuration ProcResult.notFound
        = getAudioDuration (ProcResult.ran 1 [] []) := by decide

/-- C3 amended: `_get_audio_duration` surfaces no error at all: when the
duration tool is absent it returns `0.0`, the same value as when the tool runs
but exits with an error — the two failure kinds are not distinguished by this
function. -/
theorem c3_duration_no_error :
    getAudioDuration ProcResult.notFound = 0
    ∧ ∀ (rc : ℤ) (out err : List Char), rc ≠ 0 →
        getAudioDuration (ProcResult.ran rc out err) = 0 := by
  refine ⟨rfl, ?_⟩
  intro rc out err h
  simp [getAudioDuration, h]

/-- Witness for C3 (amended) at return code `1`. -/
theorem c3_witness :
    ((1 : ℤ) ≠ 0) ∧ getAudioDuration (ProcResult.ran 1 [] []) = 0 :=
  ⟨by decide, c3_duration_no_error.2 1 [] [] (by decide)⟩

/-- C4: when the silence-detection process runs but exits non-zero,
`detect_silence` returns the empty interval list rather than raising; when the
binary is absent, a `RuntimeError` propagates instead of an empty list. -/
theorem c4_detect_silence_failure_policy :
    (∀ (rc : ℤ) (out err : List Char), rc ≠ 0 →
        detectSilence (ProcResult.ran rc out err) = Except.ok [])
    ∧ detectSilence ProcResult.notFound
        = Except.error "FFmpeg not found for silence detection" := by
  constructor
  · intro rc out err h
    simp [detectSilence, h]
  · rfl

/-- Witness for C4 at return code `2`. -/
theorem c4_witness :
    ((2 : ℤ) ≠ 0) ∧ detectSilence (ProcResult.ran 2 [] []) = Except.ok [] :=
  ⟨by decide, c4_detect_silence_failure_policy.1 2 [] [] (by decide)⟩

/-- C5 counterexample: the stitch process exits with status `0` but its output
file is missing (`outputExists = false`); `remove_silence_segments` performs no
existence check and returns the new output path, not the original audio path,
refuting the "or its output file is missing" part of the claim. The silence
list `[(1,2)]` is non-empty and yields the non-empty speech list `[(0,1)]` at
the queried duration, so stitching is actually reached. -/
theorem c5_counterexample :
    removeSilenceSegments 0 ⟨"/tmp", "audio", ".wav"⟩ [(1, 2)]
        (ProcResult.ran 1 [] []) (ProcResult.ran 0 [] []) false
      = Except.ok ⟨"/tmp", "audio_no_silence", ".wav"⟩
    ∧ (⟨"/tmp", "audio_no_silence", ".wav"⟩ : PyPath) ≠ ⟨"/tmp", "audio", ".wav"⟩ := by
  decide

/-- C5 amended: for every segment list, if the stitching process exits with a
non-zero status, `remove_silence_segments` returns the original unsegmented
audio path instead of propagating a hard error; a missing output file is never
detected — on zero exit status the new output path is returned
unconditionally. -/
theorem c5_stitch_fallback :
    (∀ (padding : ℚ) (path : PyPath) (silence : List (ℚ × ℚ))
        (durationRes : ProcResult) (rc : ℤ) (out err : List Char) (ex : Bool),
        rc ≠ 0 →
        removeSilenceSegments padding path silence durationRes
            (ProcResult.ran rc out err) ex
          = Except.ok path)
    ∧ (∀ (padding : ℚ) (path : PyPath) (silence : List (ℚ × ℚ))
        (durationRes : ProcResult) (out err : List Char) (ex : Bool),
        silence ≠ [] →
        getSpeechSegments silence (getAudioDuration durationRes) ≠ [] →
        removeSilenceSegments padding path silence durationRes
            (ProcResult.ran 0 out err) ex
          = Except.ok (noSilencePath path)) := by
  constructor
  · intro padding path silence dRes rc out err ex h
    by_cases hs : silence = []
    · simp [removeSilenceSegments, hs]
    · by_cases hsp : getSpeechSegments silence (getAudioDuration dRes) = []
      · simp [removeSilenceSegments, hs, hsp]
      · simp [removeSilenceSegments, hs, hsp, h]
  · intro padding path silence dRes out err ex hs hsp
    simp [removeSilenceSegments, hs, hsp]

/-- Witness for C5 (amended): a failed stitch (exit `1`) falls back to the
original path; a zero-exit stitch on a non-empty speech list returns the new
output path. -/
theorem c5_witness :
    ((1 : ℤ) ≠ 0
      ∧ removeSilenceSegments 0 ⟨"/tmp", "a", ".wav"⟩ []
          ProcResult.notFound (ProcResult.ran 1 [] []) true
        = Except.ok ⟨"/tmp", "a", ".wav"⟩)
    ∧ (([((1 : ℚ), (2 : ℚ))] ≠ ([] : List (ℚ × ℚ)))
      ∧ getSpeechSegments [(1, 2)] (getAudioDuration ProcResult.notFound) ≠ []
      ∧ removeSilenceSegments 0 ⟨"/tmp", "a", ".wav"⟩ [(1, 2)]
          ProcResult.notFound (ProcResult.ran 0 [] []) true
        = Except.ok (noSilencePath ⟨"/tmp", "a", ".wav"⟩)) :=
  ⟨⟨by decide, c5_stitch_fallback.1 0 ⟨"/tmp", "a", ".wav"⟩ []
      ProcResult.notFound 1 [] [] true (by decide)⟩,
    ⟨by decide, by decide, c5_stitch_fallback.2 0 ⟨"/tmp", "a", ".wav"⟩ [(1, 2)]
      ProcResult.notFound [] [] true (by decide) (by decide)⟩⟩

/-- C6: whenever the segment list to stitch is empty — the silence list is
empty, or no speech intervals remain after inversion —
`remove_silence_segments` returns the very same audio path it was given, with
no re-encoding step reached. -/
theorem c6_empty_segments_identity :
    ∀ (padding : ℚ) (path : PyPath) (silence : List (ℚ × ℚ))
      (durationRes stitchRes : ProcResult) (ex : Bool),
      (silence = [] →
        removeSilenceSegments padding path silence durationRes stitchRes ex
          = Except.ok path)
      ∧ (getSpeechSegments silence (getAudioDuration durationRes) = [] →
        removeSilenceSegments padding path silence durationRes stitchRes ex
          = Except.ok path) := by
  intro padding path silence dRes sRes ex
  constructor
  · intro hs
    simp [removeSilenceSegments, hs]
  · intro hsp
    by_cases hs : silence = []
    · simp [removeSilenceSegments, hs]
    · simp [removeSilenceSegments, hs, hsp]

/-- Witness for C6: the empty silence list, and the silence list `[(0,1)]`
whose inversion at the queried duration `0.0` leaves no speech. -/
theorem c6_witness :
    (([] : List (ℚ × ℚ)) = []
      ∧ removeSilenceSegments 0 ⟨"/tmp", "a", ".wav"⟩ []
          ProcResult.notFound ProcResult.notFound true
        = Except.ok ⟨"/tmp", "a", ".wav"⟩)
    ∧ (getSpeechSegments [((0 : ℚ), (1 : ℚ))] (getAudioDuration ProcResult.notFound) = []
      ∧ removeSilenceSegments 0 ⟨"/tmp", "a", ".wav"⟩ [(0, 1)]
          ProcResult.notFound ProcResult.notFound true
        = Except.ok ⟨"/tmp", "a", ".wav"⟩) :=
  ⟨⟨rfl, (c6_empty_segments_identity 0 ⟨"/tmp", "a", ".wav"⟩ []
      ProcResult.notFound ProcResult.notFound true).1 rfl⟩,
    ⟨by decide, (c6_empty_segments_identity 0 ⟨"/tmp", "a", ".wav"⟩ [(0, 1)]
      ProcResult.notFound ProcResult.notFound true).2 (by decide)⟩⟩

/-- C7: each speech segment `(start, end)` is padded and clamped to
`(max(0, start - padding), min(duration, end + padding))`; in particular
`pad([(2,4)], 0.2, 10) = [(1.8, 4.2)]` and
`pad([(0,1)], 0.5, 10) = [(0, 1.5)]`. -/
theorem c7_padding_formula :
    (∀ (s e p D : ℚ),
        paddedSegments [(s, e)] p D = [(max 0 (s - p), min D (e + p))])
    ∧ paddedSegments [(2, 4)] 0.2 10 = [(1.8, 4.2)]
    ∧ paddedSegments [(0, 1)] 0.5 10 = [(0, 1.5)] := by
  refine ⟨fun _ _ _ _ => rfl, ?_, ?_⟩ <;> norm_num [paddedSegments]

/-- C9: on the overlapping silence intervals `[(1,5), (3,8)]` with duration
`10`, `_get_speech_segments` yields exactly `[(0,1), (8,10)]`; and in general
one walk step emits the gap `(cursor, s)` when `cursor < s` and then advances
the cursor to `max(cursor, end)`. -/
theorem c9_overlapping_inversion :
    getSpeechSegments [(1, 5), (3, 8)] 10 = [(0, 1), (8, 10)]
    ∧ ∀ (c s e D : ℚ) (rest : List (ℚ × ℚ)),
        speechAux c ((s, e) :: rest) D =
          (if c < s then [(c, s)] else []) ++ speechAux (max c e) rest D :=
  ⟨by decide, fun _ _ _ _ _ => rfl⟩

end VideoExtractor
